import Mathlib

set_option maxHeartbeats 1000000

/-
Shallow embedding of the selective-hunk-to-commit translation of the
CreateCommitDrawer component: the diff lookup (findHunkDiff), the selection
flattener and commit assembler (createCommit), and the caller
(handleCommitCreation).  Backend collaborators (worktree/diff services, stack
service) are modelled as an explicit environment of pure functions; the
asynchronous calls issued to them are recorded in an explicit call trace, and
the mutable UI state (project state, global draft branch name, per-stack
selection, change selection, toasts) is passed explicitly.  JavaScript
falsiness of optional strings (undefined or the empty string) is modelled by
strFalsy, and the TypeScript a || b fallback on such strings by jsOrStr.
-/

/-- Four diff coordinates identifying a hunk region (TS HunkHeader). -/
structure HunkHeader where
  oldStart : Nat
  oldLines : Nat
  newStart : Nat
  newLines : Nat
deriving DecidableEq, Repr

/-- One hunk of a unified diff: its coordinates plus the raw diff text (TS DiffHunk). -/
structure DiffHunk where
  oldStart : Nat
  oldLines : Nat
  newStart : Nat
  newLines : Nat
  diff : String
deriving DecidableEq, Repr

/-- Identifier of one selected line within a hunk (old-side or new-side numbering). -/
structure LineId where
  oldLine : Option Nat
  newLine : Option Nat
deriving DecidableEq, Repr

/-- Purpose tag passed to lineIdsToHunkHeaders; this component always passes commit. -/
inductive Purpose where
  | commit
  | other
deriving DecidableEq, Repr

/-- Per-hunk selection (TS SelectedHunk): the Full variant carries the four
coordinates, the Partial variant carries them plus the selected line ids. -/
inductive SelectedHunk where
  | Full (header : HunkHeader)
  | Partial (header : HunkHeader) (lines : List LineId)
deriving DecidableEq, Repr

/-- The four coordinates carried by either variant of a hunk selection. -/
def SelectedHunk.header : SelectedHunk → HunkHeader
  | .Full h => h
  | .Partial h _ => h

/-- Per-file selection (from the change-selection service): Full takes the
whole file; Partial carries an ordered list of hunk selections. -/
inductive FileSelection where
  | Full (path : String) (pathBytes : String) (previousPathBytes : Option String)
  | Partial (path : String) (pathBytes : String) (previousPathBytes : Option String)
      (hunks : List SelectedHunk)
deriving DecidableEq, Repr

/-- One entry of the commit request (TS CreateCommitRequestWorktreeChanges). -/
structure WorktreeChange where
  pathBytes : String
  previousPathBytes : Option String
  hunkHeaders : List HunkHeader
deriving DecidableEq, Repr

/-- Opaque token for the tree change returned by the worktree service. -/
abbrev TreeChange := String

/-- Diff of one file as returned by the diff service: either a content patch
with a hunk list, or some other change type (binary, type change, ...). -/
inductive TreeChangeDiff where
  | Patch (hunks : List DiffHunk)
  | NotPatch
deriving DecidableEq, Repr

/-- A branch head of a stack; only its name is read here. -/
structure BranchHead where
  name : String
deriving DecidableEq, Repr

/-- A stack as returned by the stack service when creating a new stack. -/
structure Stack where
  id : String
  heads : List BranchHead
deriving DecidableEq, Repr

/-- The request sent to the backend commit operation. -/
structure CommitRequest where
  projectId : String
  stackId : String
  parentId : Option String
  message : String
  stackBranchName : String
  worktreeChanges : List WorktreeChange
deriving DecidableEq, Repr

/-- The backend commit result: the new commit id plus (reason, path) pairs for
files rejected because they are locked to another branch. -/
structure CommitResponse where
  newCommit : String
  pathsToRejectedChanges : List (String × String)
deriving DecidableEq, Repr

/-- The errors thrown by createCommit, one constructor per throw site of the
source (plus backendFailure for a rejected backend request). -/
inductive CommitError where
  | failedFetchChange
  | failedFetchDiff
  | hunkNotFound
  | noStackSelected
  | noBranchSelected
  | backendFailure (message : String)
deriving DecidableEq, Repr

/-- One backend request issued by the component, recorded in the call trace. -/
inductive BCall where
  | fetchChange (projectId path : String)
  | fetchDiff (projectId : String) (change : TreeChange)
  | newStack (projectId : String) (branchName : Option String)
  | commitInStack (request : CommitRequest)
deriving DecidableEq, Repr

/-- The backend collaborators, as pure functions: a none result of the two
fetchers models a query that resolved with no data. -/
structure Env where
  fetchChange : String → String → Option TreeChange
  fetchDiff : String → TreeChange → Option TreeChangeDiff
  lineIdsToHunkHeaders : List LineId → String → Purpose → List HunkHeader
  newStack : String → Option String → Except CommitError Stack
  commitInStack : CommitRequest → Except CommitError CommitResponse

/-- The per-stack selection written on success (branch name plus commit id). -/
structure SelectionState where
  branchName : String
  commitId : String
deriving DecidableEq, Repr

/-- A user-visible notification: an error-style toast, the failure dialog of
handleCommitCreation, or the rejected-paths warning (whose UI text enumerates
the carried paths joined by newlines). -/
inductive UiMessage where
  | toastError (message : String)
  | errorShown (title : String) (cause : CommitError)
  | rejectedWarning (title : String) (paths : List String)
deriving DecidableEq, Repr

/-- The mutable UI state touched by createCommit and handleCommitCreation. -/
structure UiSt where
  projectStackId : Option String
  draftBranchName : Option String
  commitTitle : String
  commitDescription : String
  drawerPage : Option String
  stackSelections : List (String × SelectionState)
  changeSel : List FileSelection
  messages : List UiMessage
deriving DecidableEq, Repr

/-- The reactive inputs of the component at the moment createCommit runs: the
stackId prop, the branch name of the current stack selection, the name of the
top branch, and the currently selected commit id. -/
structure Inputs where
  projectId : String
  stackId : Option String
  selectionBranchName : Option String
  topBranchName : Option String
  selectedCommitId : Option String
deriving DecidableEq, Repr

/-- JavaScript falsiness of an optional string: undefined or empty. -/
def strFalsy : Option String → Bool
  | none => true
  | some s => s == ""

/-- The TypeScript a || b fallback on optional strings. -/
def jsOrStr (a b : Option String) : Option String :=
  if strFalsy a then b else a

/-- Insert or overwrite the selection stored for one stack id. -/
def setSel : List (String × SelectionState) → String → SelectionState →
    List (String × SelectionState)
  | [], k, v => [(k, v)]
  | (k', v') :: rest, k, v =>
      if k' = k then (k, v) :: rest else (k', v') :: setSel rest k v

/-- Append one notification to the UI state. -/
def pushMsg (st : UiSt) (m : UiMessage) : UiSt :=
  { st with messages := st.messages ++ [m] }

/-- The coordinate comparison used by findHunkDiff on each fetched hunk. -/
def hunkMatches (hunkDiff : DiffHunk) (hunk : SelectedHunk) : Bool :=
  hunkDiff.oldStart == hunk.header.oldStart && hunkDiff.oldLines == hunk.header.oldLines &&
  hunkDiff.newStart == hunk.header.newStart && hunkDiff.newLines == hunk.header.newLines

/-- Diff Lookup (source findHunkDiff), paired with its backend call trace.
A fetch that resolves with no data throws; a non-Patch file yields ok none;
otherwise the fetched hunk list is searched for exactly matching coordinates. -/
def findHunkDiff (env : Env) (projectId filePath : String) (hunk : SelectedHunk) :
    List BCall × Except CommitError (Option DiffHunk) :=
  match env.fetchChange projectId filePath with
  | none => ([BCall.fetchChange projectId filePath], Except.error CommitError.failedFetchChange)
  | some treeChange =>
    match env.fetchDiff projectId treeChange with
    | none =>
        ([BCall.fetchChange projectId filePath, BCall.fetchDiff projectId treeChange],
          Except.error CommitError.failedFetchDiff)
    | some (TreeChangeDiff.NotPatch) =>
        ([BCall.fetchChange projectId filePath, BCall.fetchDiff projectId treeChange],
          Except.ok none)
    | some (TreeChangeDiff.Patch hunks) =>
        ([BCall.fetchChange projectId filePath, BCall.fetchDiff projectId treeChange],
          Except.ok (hunks.find? (fun hunkDiff => hunkMatches hunkDiff hunk)))

/-- The inner loop of createCommit over the hunk selections of one Partial
file: a Full hunk selection pushes its coordinates directly; a Partial one
looks the hunk up (throwing hunkNotFound when absent) and pushes the headers
produced by lineIdsToHunkHeaders on the fetched diff text. -/
def flattenHunks (env : Env) (projectId path : String) :
    List SelectedHunk → List BCall × Except CommitError (List HunkHeader)
  | [] => ([], Except.ok [])
  | SelectedHunk.Full header :: rest =>
    let r := flattenHunks env projectId path rest
    (r.1, r.2.map (fun hs => header :: hs))
  | SelectedHunk.Partial header lines :: rest =>
    let f := findHunkDiff env projectId path (SelectedHunk.Partial header lines)
    match f.2 with
    | Except.error e => (f.1, Except.error e)
    | Except.ok none => (f.1, Except.error CommitError.hunkNotFound)
    | Except.ok (some hunkDiff) =>
      let headers := env.lineIdsToHunkHeaders lines hunkDiff.diff Purpose.commit
      let r := flattenHunks env projectId path rest
      (f.1 ++ r.1, r.2.map (fun hs => headers ++ hs))

/-- The outer loop of createCommit over the selected changes: a Full file
selection emits an entry with no hunk headers; a Partial one emits an entry
whose headers come from flattenHunks. -/
def flattenSelection (env : Env) (projectId : String) :
    List FileSelection → List BCall × Except CommitError (List WorktreeChange)
  | [] => ([], Except.ok [])
  | FileSelection.Full _path pathBytes previousPathBytes :: rest =>
    let r := flattenSelection env projectId rest
    (r.1, r.2.map (fun ws => WorktreeChange.mk pathBytes previousPathBytes [] :: ws))
  | FileSelection.Partial path pathBytes previousPathBytes hunks :: rest =>
    let f := flattenHunks env projectId path hunks
    match f.2 with
    | Except.error e => (f.1, Except.error e)
    | Except.ok headers =>
      let r := flattenSelection env projectId rest
      (f.1 ++ r.1, r.2.map (fun ws => WorktreeChange.mk pathBytes previousPathBytes headers :: ws))

/-- The target-resolution prefix of createCommit: with a truthy stackId prop
it is kept together with selectedBranchName || topBranchName (where
selectedBranchName is the derived selection branch-name || top fallback);
otherwise a new stack is created from the draft branch name, recorded as the
project's selected stack, its first head becomes the target branch, and the
draft branch name is cleared. -/
def resolveTarget (env : Env) (inp : Inputs) (st : UiSt) :
    UiSt × List BCall × Except CommitError (Option String × Option String) :=
  let selectedBranchName := jsOrStr inp.selectionBranchName inp.topBranchName
  let finalBranchName := jsOrStr selectedBranchName inp.topBranchName
  if strFalsy inp.stackId then
    match env.newStack inp.projectId st.draftBranchName with
    | Except.error e =>
        (st, [BCall.newStack inp.projectId st.draftBranchName], Except.error e)
    | Except.ok stack =>
        let st1 := { st with projectStackId := some stack.id }
        let newBranchName := (stack.heads.head?).map BranchHead.name
        let st2 := { st1 with draftBranchName := none }
        (st2, [BCall.newStack inp.projectId st.draftBranchName],
          Except.ok (some stack.id, newBranchName))
  else
    (st, [], Except.ok (inp.stackId, finalBranchName))

/-- The commit request assembled by createCommit: projectId, resolved stack
id, the currently selected commit as parent, the message, the resolved branch
name, and the flattened changes. -/
def mkReq (inp : Inputs) (message : String) (finalStackId finalBranchName : Option String)
    (worktreeChanges : List WorktreeChange) : CommitRequest :=
  CommitRequest.mk inp.projectId (finalStackId.getD "") inp.selectedCommitId message
    (finalBranchName.getD "") worktreeChanges

/-- The UI side effects applied after a successful backend commit, in source
order: clear the saved title and description, close the drawer, select the new
commit for the target stack and branch, clear the change selection, and warn
about rejected paths when there are any. -/
def applySuccess (st : UiSt) (finalStackId finalBranchName : Option String)
    (response : CommitResponse) : UiSt :=
  let st1 := { st with commitTitle := "", commitDescription := "", drawerPage := none }
  let newSels := setSel st1.stackSelections (finalStackId.getD "")
    (SelectionState.mk (finalBranchName.getD "") response.newCommit)
  let st2 := { st1 with stackSelections := newSels }
  let st3 := { st2 with changeSel := [] }
  if response.pathsToRejectedChanges.length > 0 then
    pushMsg st3 (UiMessage.rejectedWarning "Some changes were not committed"
      (response.pathsToRejectedChanges.map Prod.snd))
  else st3

/-- The remainder of createCommit after target resolution: the two guards, the
flattening of the change selection, the backend commit call, and on success
the UI side effects plus the rejected-paths warning. -/
def createCommitAfterResolve (env : Env) (inp : Inputs) (message : String) (st : UiSt)
    (finalStackId finalBranchName : Option String) :
    UiSt × List BCall × Except CommitError Unit :=
  if strFalsy finalStackId then (st, [], Except.error CommitError.noStackSelected)
  else if strFalsy finalBranchName then (st, [], Except.error CommitError.noBranchSelected)
  else
    let f := flattenSelection env inp.projectId st.changeSel
    match f.2 with
    | Except.error e => (st, f.1, Except.error e)
    | Except.ok worktreeChanges =>
      let req := mkReq inp message finalStackId finalBranchName worktreeChanges
      match env.commitInStack req with
      | Except.error e => (st, f.1 ++ [BCall.commitInStack req], Except.error e)
      | Except.ok response =>
        (applySuccess st finalStackId finalBranchName response,
          f.1 ++ [BCall.commitInStack req], Except.ok ())

/-- The source createCommit: target resolution followed by the guarded
flatten-and-commit tail, with the call traces concatenated in order. -/
def createCommit (env : Env) (inp : Inputs) (message : String) (st : UiSt) :
    UiSt × List BCall × Except CommitError Unit :=
  match resolveTarget env inp st with
  | (st1, calls1, Except.error e) => (st1, calls1, Except.error e)
  | (st1, calls1, Except.ok (finalStackId, finalBranchName)) =>
    let r := createCommitAfterResolve env inp message st1 finalStackId finalBranchName
    (r.1, calls1 ++ r.2.1, r.2.2)

/-- The source handleCommitCreation: a falsy composed message is rejected
locally with an error toast; otherwise createCommit runs and a thrown error
is surfaced as a Failed-to-commit dialog. -/
def handleCommitCreation (env : Env) (inp : Inputs) (message : Option String) (st : UiSt) :
    UiSt × List BCall :=
  if strFalsy message then
    (pushMsg st (UiMessage.toastError "Commit message is required"), [])
  else
    match createCommit env inp (message.getD "") st with
    | (st1, calls, Except.ok _) => (st1, calls)
    | (st1, calls, Except.error e) =>
      (pushMsg st1 (UiMessage.errorShown "Failed to commit" e), calls)

/-- Spec formulation of the per-hunk contribution of the flattener (section 4.3
of the spec): a Full hunk selection contributes exactly its four coordinates
with no lookup; a Partial one contributes the headers produced by the
translator on the looked-up hunk diff, failing when the lookup fails or finds
nothing. -/
def specHunkContribution (env : Env) (projectId path : String) :
    SelectedHunk → Except CommitError (List HunkHeader)
  | SelectedHunk.Full header => Except.ok [header]
  | SelectedHunk.Partial header lines =>
    match (findHunkDiff env projectId path (SelectedHunk.Partial header lines)).2 with
    | Except.error e => Except.error e
    | Except.ok none => Except.error CommitError.hunkNotFound
    | Except.ok (some hunkDiff) =>
        Except.ok (env.lineIdsToHunkHeaders lines hunkDiff.diff Purpose.commit)

/-- Spec formulation of the header list of one Partial file: the per-hunk
contributions, visited in order and appended. -/
def specFlattenHunks (env : Env) (projectId path : String) :
    List SelectedHunk → Except CommitError (List HunkHeader)
  | [] => Except.ok []
  | h :: rest => do
    let b ← specHunkContribution env projectId path h
    let bs ← specFlattenHunks env projectId path rest
    return b ++ bs

/-- Spec formulation of one change entry per file selection: a Full file maps
to an entry with no hunk headers, a Partial file to an entry with the headers
of specFlattenHunks. -/
def specFileEntry (env : Env) (projectId : String) :
    FileSelection → Except CommitError WorktreeChange
  | FileSelection.Full _path pathBytes previousPathBytes =>
      Except.ok (WorktreeChange.mk pathBytes previousPathBytes [])
  | FileSelection.Partial path pathBytes previousPathBytes hunks =>
      (specFlattenHunks env projectId path hunks).map
        (fun headers => WorktreeChange.mk pathBytes previousPathBytes headers)

/-- Spec formulation of the flattener: exactly one change entry per file
selection, in file-selection order. -/
def specFlattenFiles (env : Env) (projectId : String) :
    List FileSelection → Except CommitError (List WorktreeChange)
  | [] => Except.ok []
  | fsel :: rest => do
    let w ← specFileEntry env projectId fsel
    let ws ← specFlattenFiles env projectId rest
    return w :: ws

theorem flattenHunks_eq_spec (env : Env) (projectId path : String)
    (hunks : List SelectedHunk) :
    (flattenHunks env projectId path hunks).2 = specFlattenHunks env projectId path hunks := by
  induction hunks with
  | nil => rfl
  | cons h rest ih =>
    cases h with
    | Full header =>
      simp only [flattenHunks, specFlattenHunks, specHunkContribution, ih]
      cases specFlattenHunks env projectId path rest <;> rfl
    | Partial header lines =>
      simp only [flattenHunks, specFlattenHunks, specHunkContribution]
      cases hf : (findHunkDiff env projectId path (SelectedHunk.Partial header lines)).2 with
      | error e => rfl
      | ok o =>
        cases o with
        | none => rfl
        | some hunkDiff =>
          simp only [ih]
          cases specFlattenHunks env projectId path rest <;> rfl

theorem flattenSelection_eq_spec (env : Env) (projectId : String)
    (sel : List FileSelection) :
    (flattenSelection env projectId sel).2 = specFlattenFiles env projectId sel := by
  induction sel with
  | nil => rfl
  | cons fsel rest ih =>
    cases fsel with
    | Full path pathBytes previousPathBytes =>
      simp only [flattenSelection, specFlattenFiles, specFileEntry, ih]
      cases specFlattenFiles env projectId rest <;> rfl
    | Partial path pathBytes previousPathBytes hunks =>
      simp only [flattenSelection, specFlattenFiles, specFileEntry,
        flattenHunks_eq_spec]
      cases specFlattenHunks env projectId path hunks with
      | error e => rfl
      | ok headers =>
        simp only [ih]
        cases specFlattenFiles env projectId rest <;> rfl

/-- True exactly for the two read-only diff-lookup requests. -/
def BCall.isFetch : BCall → Bool
  | .fetchChange _ _ => true
  | .fetchDiff _ _ => true
  | .newStack _ _ => false
  | .commitInStack _ => false

theorem findHunkDiff_calls_fetch (env : Env) (projectId path : String) (hunk : SelectedHunk) :
    ∀ c ∈ (findHunkDiff env projectId path hunk).1, c.isFetch = true := by
  intro c hc
  cases hfc : env.fetchChange projectId path with
  | none =>
    simp only [findHunkDiff, hfc, List.mem_singleton] at hc
    subst hc
    rfl
  | some tc =>
    cases hfd : env.fetchDiff projectId tc with
    | none =>
      simp only [findHunkDiff, hfc, hfd, List.mem_cons, List.mem_singleton,
        List.not_mem_nil, or_false] at hc
      rcases hc with h | h <;> subst h <;> rfl
    | some fd =>
      cases fd with
      | Patch hunks =>
        simp only [findHunkDiff, hfc, hfd, List.mem_cons, List.mem_singleton,
          List.not_mem_nil, or_false] at hc
        rcases hc with h | h <;> subst h <;> rfl
      | NotPatch =>
        simp only [findHunkDiff, hfc, hfd, List.mem_cons, List.mem_singleton,
          List.not_mem_nil, or_false] at hc
        rcases hc with h | h <;> subst h <;> rfl

theorem flattenHunks_calls_from (env : Env) (projectId path : String)
    (hunks : List SelectedHunk) :
    ∀ c ∈ (flattenHunks env projectId path hunks).1,
      ∃ header lines, SelectedHunk.Partial header lines ∈ hunks ∧
        c ∈ (findHunkDiff env projectId path (SelectedHunk.Partial header lines)).1 := by
  induction hunks with
  | nil => intro c hc; simp [flattenHunks] at hc
  | cons h rest ih =>
    intro c hc
    cases h with
    | Full header =>
      simp only [flattenHunks] at hc
      obtain ⟨hd, ls, hmem, hin⟩ := ih c hc
      exact ⟨hd, ls, List.mem_cons_of_mem _ hmem, hin⟩
    | Partial header lines =>
      simp only [flattenHunks] at hc
      cases hf : (findHunkDiff env projectId path (SelectedHunk.Partial header lines)).2 with
      | error e =>
        rw [hf] at hc
        exact ⟨header, lines, List.mem_cons_self _ _, hc⟩
      | ok o =>
        cases o with
        | none =>
          rw [hf] at hc
          exact ⟨header, lines, List.mem_cons_self _ _, hc⟩
        | some hunkDiff =>
          rw [hf] at hc
          simp only [List.mem_append] at hc
          rcases hc with hc | hc
          · exact ⟨header, lines, List.mem_cons_self _ _, hc⟩
          · obtain ⟨hd, ls, hmem, hin⟩ := ih c hc
            exact ⟨hd, ls, List.mem_cons_of_mem _ hmem, hin⟩

theorem flattenHunks_calls_fetch (env : Env) (projectId path : String)
    (hunks : List SelectedHunk) :
    ∀ c ∈ (flattenHunks env projectId path hunks).1, c.isFetch = true := by
  intro c hc
  obtain ⟨hd, ls, _, hin⟩ := flattenHunks_calls_from env projectId path hunks c hc
  exact findHunkDiff_calls_fetch env projectId path _ c hin

theorem flattenSelection_calls_fetch (env : Env) (projectId : String)
    (sel : List FileSelection) :
    ∀ c ∈ (flattenSelection env projectId sel).1, c.isFetch = true := by
  induction sel with
  | nil => intro c hc; simp [flattenSelection] at hc
  | cons fsel rest ih =>
    intro c hc
    cases fsel with
    | Full path pathBytes previousPathBytes =>
      simp only [flattenSelection] at hc
      exact ih c hc
    | Partial path pathBytes previousPathBytes hunks =>
      simp only [flattenSelection] at hc
      cases hf : (flattenHunks env projectId path hunks).2 with
      | error e =>
        rw [hf] at hc
        exact flattenHunks_calls_fetch env projectId path hunks c hc
      | ok headers =>
        rw [hf] at hc
        simp only [List.mem_append] at hc
        rcases hc with hc | hc
        · exact flattenHunks_calls_fetch env projectId path hunks c hc
        · exact ih c hc

theorem lookup_setSel (l : List (String × SelectionState)) (k : String) (v : SelectionState) :
    List.lookup k (setSel l k v) = some v := by
  induction l with
  | nil => simp [setSel, List.lookup]
  | cons kv rest ih =>
    obtain ⟨k', v'⟩ := kv
    by_cases hk : k' = k
    · subst hk
      simp [setSel, List.lookup]
    · have hk2 : (k == k') = false := beq_eq_false_iff_ne.mpr (Ne.symm hk)
      simp [setSel, hk, List.lookup, hk2, ih]

theorem resolveTarget_provided (env : Env) (inp : Inputs) (st : UiSt)
    (hs : strFalsy inp.stackId = false) :
    resolveTarget env inp st =
      (st, [], Except.ok (inp.stackId,
        jsOrStr (jsOrStr inp.selectionBranchName inp.topBranchName) inp.topBranchName)) := by
  simp [resolveTarget, hs]

theorem resolveTarget_newStack_ok (env : Env) (inp : Inputs) (st : UiSt) (stack : Stack)
    (hs : strFalsy inp.stackId = true)
    (hns : env.newStack inp.projectId st.draftBranchName = Except.ok stack) :
    resolveTarget env inp st =
      ({ st with projectStackId := some stack.id, draftBranchName := none },
        [BCall.newStack inp.projectId st.draftBranchName],
        Except.ok (some stack.id, (stack.heads.head?).map BranchHead.name)) := by
  simp [resolveTarget, hs, hns]

theorem resolveTarget_newStack_error (env : Env) (inp : Inputs) (st : UiSt) (e : CommitError)
    (hs : strFalsy inp.stackId = true)
    (hns : env.newStack inp.projectId st.draftBranchName = Except.error e) :
    resolveTarget env inp st =
      (st, [BCall.newStack inp.projectId st.draftBranchName], Except.error e) := by
  simp [resolveTarget, hs, hns]

theorem resolveTarget_frame (env : Env) (inp : Inputs) (st : UiSt) :
    (resolveTarget env inp st).1.commitTitle = st.commitTitle ∧
    (resolveTarget env inp st).1.commitDescription = st.commitDescription ∧
    (resolveTarget env inp st).1.drawerPage = st.drawerPage ∧
    (resolveTarget env inp st).1.stackSelections = st.stackSelections ∧
    (resolveTarget env inp st).1.changeSel = st.changeSel ∧
    (resolveTarget env inp st).1.messages = st.messages := by
  by_cases hs : strFalsy inp.stackId = true
  · cases hns : env.newStack inp.projectId st.draftBranchName with
    | error e => simp [resolveTarget, hs, hns]
    | ok stack => simp [resolveTarget, hs, hns]
  · rw [Bool.not_eq_true] at hs
    simp [resolveTarget, hs]

theorem resolveTarget_calls (env : Env) (inp : Inputs) (st : UiSt) :
    ∀ c ∈ (resolveTarget env inp st).2.1, ∃ p b, c = BCall.newStack p b := by
  intro c hc
  by_cases hs : strFalsy inp.stackId = true
  · cases hns : env.newStack inp.projectId st.draftBranchName with
    | error e =>
      simp [resolveTarget, hs, hns] at hc
      exact ⟨_, _, hc⟩
    | ok stack =>
      simp [resolveTarget, hs, hns] at hc
      exact ⟨_, _, hc⟩
  · rw [Bool.not_eq_true] at hs
    simp [resolveTarget, hs] at hc

theorem applySuccess_spec (st : UiSt) (finalStackId finalBranchName : Option String)
    (response : CommitResponse) :
    (applySuccess st finalStackId finalBranchName response).commitTitle = "" ∧
    (applySuccess st finalStackId finalBranchName response).commitDescription = "" ∧
    (applySuccess st finalStackId finalBranchName response).drawerPage = none ∧
    (applySuccess st finalStackId finalBranchName response).changeSel = [] ∧
    List.lookup (finalStackId.getD "")
      (applySuccess st finalStackId finalBranchName response).stackSelections =
      some (SelectionState.mk (finalBranchName.getD "") response.newCommit) ∧
    (applySuccess st finalStackId finalBranchName response).projectStackId =
      st.projectStackId ∧
    (applySuccess st finalStackId finalBranchName response).draftBranchName =
      st.draftBranchName ∧
    (applySuccess st finalStackId finalBranchName response).messages =
      st.messages ++
        (if response.pathsToRejectedChanges.length > 0 then
          [UiMessage.rejectedWarning "Some changes were not committed"
            (response.pathsToRejectedChanges.map Prod.snd)]
        else []) := by
  by_cases hp : response.pathsToRejectedChanges.length > 0
  · simp [applySuccess, hp, pushMsg, lookup_setSel]
  · simp [applySuccess, hp, pushMsg, lookup_setSel]

theorem afterResolve_guard_stack (env : Env) (inp : Inputs) (m : String) (st : UiSt)
    (fsid fbn : Option String) (hfs : strFalsy fsid = true) :
    createCommitAfterResolve env inp m st fsid fbn =
      (st, [], Except.error CommitError.noStackSelected) := by
  simp [createCommitAfterResolve, hfs]

theorem afterResolve_guard_branch (env : Env) (inp : Inputs) (m : String) (st : UiSt)
    (fsid fbn : Option String) (hfs : strFalsy fsid = false) (hfb : strFalsy fbn = true) :
    createCommitAfterResolve env inp m st fsid fbn =
      (st, [], Except.error CommitError.noBranchSelected) := by
  simp [createCommitAfterResolve, hfs, hfb]

theorem afterResolve_flatten_error (env : Env) (inp : Inputs) (m : String) (st : UiSt)
    (fsid fbn : Option String) (e : CommitError)
    (hfs : strFalsy fsid = false) (hfb : strFalsy fbn = false)
    (hfl : (flattenSelection env inp.projectId st.changeSel).2 = Except.error e) :
    createCommitAfterResolve env inp m st fsid fbn =
      (st, (flattenSelection env inp.projectId st.changeSel).1, Except.error e) := by
  simp [createCommitAfterResolve, hfs, hfb, hfl]

theorem afterResolve_commit_error (env : Env) (inp : Inputs) (m : String) (st : UiSt)
    (fsid fbn : Option String) (wcs : List WorktreeChange) (e : CommitError)
    (hfs : strFalsy fsid = false) (hfb : strFalsy fbn = false)
    (hfl : (flattenSelection env inp.projectId st.changeSel).2 = Except.ok wcs)
    (hcr : env.commitInStack (mkReq inp m fsid fbn wcs) = Except.error e) :
    createCommitAfterResolve env inp m st fsid fbn =
      (st, (flattenSelection env inp.projectId st.changeSel).1 ++
        [BCall.commitInStack (mkReq inp m fsid fbn wcs)], Except.error e) := by
  simp [createCommitAfterResolve, hfs, hfb, hfl, hcr]

theorem afterResolve_commit_ok (env : Env) (inp : Inputs) (m : String) (st : UiSt)
    (fsid fbn : Option String) (wcs : List WorktreeChange) (resp : CommitResponse)
    (hfs : strFalsy fsid = false) (hfb : strFalsy fbn = false)
    (hfl : (flattenSelection env inp.projectId st.changeSel).2 = Except.ok wcs)
    (hcr : env.commitInStack (mkReq inp m fsid fbn wcs) = Except.ok resp) :
    createCommitAfterResolve env inp m st fsid fbn =
      (applySuccess st fsid fbn resp,
        (flattenSelection env inp.projectId st.changeSel).1 ++
          [BCall.commitInStack (mkReq inp m fsid fbn wcs)], Except.ok ()) := by
  simp [createCommitAfterResolve, hfs, hfb, hfl, hcr]

theorem afterResolve_error_fst (env : Env) (inp : Inputs) (m : String) (st : UiSt)
    (fsid fbn : Option String) (e : CommitError)
    (h : (createCommitAfterResolve env inp m st fsid fbn).2.2 = Except.error e) :
    (createCommitAfterResolve env inp m st fsid fbn).1 = st := by
  by_cases hfs : strFalsy fsid = true
  · rw [afterResolve_guard_stack env inp m st fsid fbn hfs]
  · rw [Bool.not_eq_true] at hfs
    by_cases hfb : strFalsy fbn = true
    · rw [afterResolve_guard_branch env inp m st fsid fbn hfs hfb]
    · rw [Bool.not_eq_true] at hfb
      cases hfl : (flattenSelection env inp.projectId st.changeSel).2 with
      | error e0 => rw [afterResolve_flatten_error env inp m st fsid fbn e0 hfs hfb hfl]
      | ok wcs =>
        cases hcr : env.commitInStack (mkReq inp m fsid fbn wcs) with
        | error e0 => rw [afterResolve_commit_error env inp m st fsid fbn wcs e0 hfs hfb hfl hcr]
        | ok resp =>
          rw [afterResolve_commit_ok env inp m st fsid fbn wcs resp hfs hfb hfl hcr] at h
          simp at h

theorem afterResolve_ok_inv (env : Env) (inp : Inputs) (m : String) (st : UiSt)
    (fsid fbn : Option String) (u : Unit)
    (h : (createCommitAfterResolve env inp m st fsid fbn).2.2 = Except.ok u) :
    strFalsy fsid = false ∧ strFalsy fbn = false ∧
    ∃ wcs resp,
      (flattenSelection env inp.projectId st.changeSel).2 = Except.ok wcs ∧
      env.commitInStack (mkReq inp m fsid fbn wcs) = Except.ok resp ∧
      createCommitAfterResolve env inp m st fsid fbn =
        (applySuccess st fsid fbn resp,
          (flattenSelection env inp.projectId st.changeSel).1 ++
            [BCall.commitInStack (mkReq inp m fsid fbn wcs)], Except.ok ()) := by
  by_cases hfs : strFalsy fsid = true
  · rw [afterResolve_guard_stack env inp m st fsid fbn hfs] at h
    simp at h
  · rw [Bool.not_eq_true] at hfs
    by_cases hfb : strFalsy fbn = true
    · rw [afterResolve_guard_branch env inp m st fsid fbn hfs hfb] at h
      simp at h
    · rw [Bool.not_eq_true] at hfb
      cases hfl : (flattenSelection env inp.projectId st.changeSel).2 with
      | error e0 =>
        rw [afterResolve_flatten_error env inp m st fsid fbn e0 hfs hfb hfl] at h
        simp at h
      | ok wcs =>
        cases hcr : env.commitInStack (mkReq inp m fsid fbn wcs) with
        | error e0 =>
          rw [afterResolve_commit_error env inp m st fsid fbn wcs e0 hfs hfb hfl hcr] at h
          simp at h
        | ok resp =>
          exact ⟨hfs, hfb, wcs, resp, rfl, hcr,
            afterResolve_commit_ok env inp m st fsid fbn wcs resp hfs hfb hfl hcr⟩

theorem createCommit_ok_inv (env : Env) (inp : Inputs) (m : String) (st : UiSt) (u : Unit)
    (h : (createCommit env inp m st).2.2 = Except.ok u) :
    ∃ st1 calls1 fsid fbn,
      resolveTarget env inp st = (st1, calls1, Except.ok (fsid, fbn)) ∧
      strFalsy fsid = false ∧ strFalsy fbn = false ∧
      ∃ wcs resp,
        (flattenSelection env inp.projectId st1.changeSel).2 = Except.ok wcs ∧
        env.commitInStack (mkReq inp m fsid fbn wcs) = Except.ok resp ∧
        createCommit env inp m st =
          (applySuccess st1 fsid fbn resp,
            calls1 ++ ((flattenSelection env inp.projectId st1.changeSel).1 ++
              [BCall.commitInStack (mkReq inp m fsid fbn wcs)]), Except.ok ()) := by
  rcases hrt : resolveTarget env inp st with ⟨st1, calls1, r⟩
  cases r with
  | error e0 =>
    simp only [createCommit, hrt] at h
    simp at h
  | ok p =>
    obtain ⟨fsid, fbn⟩ := p
    simp only [createCommit, hrt] at h
    have hinv := afterResolve_ok_inv env inp m st1 fsid fbn u h
    obtain ⟨hfs, hfb, wcs, resp, hfl, hcr, heq⟩ := hinv
    refine ⟨st1, calls1, fsid, fbn, rfl, hfs, hfb, wcs, resp, hfl, hcr, ?_⟩
    simp only [createCommit, hrt, heq]

theorem createCommit_error_frame (env : Env) (inp : Inputs) (m : String) (st : UiSt)
    (e : CommitError) (h : (createCommit env inp m st).2.2 = Except.error e) :
    (createCommit env inp m st).1.commitTitle = st.commitTitle ∧
    (createCommit env inp m st).1.commitDescription = st.commitDescription ∧
    (createCommit env inp m st).1.drawerPage = st.drawerPage ∧
    (createCommit env inp m st).1.stackSelections = st.stackSelections ∧
    (createCommit env inp m st).1.changeSel = st.changeSel ∧
    (createCommit env inp m st).1.messages = st.messages := by
  have hframe := resolveTarget_frame env inp st
  rcases hrt : resolveTarget env inp st with ⟨st1, calls1, r⟩
  rw [hrt] at hframe
  cases r with
  | error e0 =>
    simp only [createCommit, hrt]
    exact hframe
  | ok p =>
    obtain ⟨fsid, fbn⟩ := p
    simp only [createCommit, hrt] at h ⊢
    rw [afterResolve_error_fst env inp m st1 fsid fbn e h]
    exact hframe

theorem createCommit_flatten_error (env : Env) (inp : Inputs) (m : String) (st : UiSt)
    (e : CommitError)
    (hfl : (flattenSelection env inp.projectId st.changeSel).2 = Except.error e) :
    (∃ e', (createCommit env inp m st).2.2 = Except.error e') ∧
    (∀ req, BCall.commitInStack req ∉ (createCommit env inp m st).2.1) := by
  have hframe := resolveTarget_frame env inp st
  have hcallsAll := resolveTarget_calls env inp st
  rcases hrt : resolveTarget env inp st with ⟨st1, calls1, r⟩
  rw [hrt] at hframe hcallsAll
  have hch : st1.changeSel = st.changeSel := hframe.2.2.2.2.1
  have hfl1 : (flattenSelection env inp.projectId st1.changeSel).2 = Except.error e := by
    rw [hch]; exact hfl
  cases r with
  | error e0 =>
    simp only [createCommit, hrt]
    refine ⟨⟨e0, rfl⟩, ?_⟩
    intro req hreq
    obtain ⟨p', b', heq⟩ := hcallsAll _ hreq
    exact BCall.noConfusion heq
  | ok p =>
    obtain ⟨fsid, fbn⟩ := p
    by_cases hfs : strFalsy fsid = true
    · simp only [createCommit, hrt, afterResolve_guard_stack env inp m st1 fsid fbn hfs]
      refine ⟨⟨CommitError.noStackSelected, rfl⟩, ?_⟩
      intro req hreq
      simp only [List.append_nil] at hreq
      obtain ⟨p', b', heq⟩ := hcallsAll _ hreq
      exact BCall.noConfusion heq
    · rw [Bool.not_eq_true] at hfs
      by_cases hfb : strFalsy fbn = true
      · simp only [createCommit, hrt, afterResolve_guard_branch env inp m st1 fsid fbn hfs hfb]
        refine ⟨⟨CommitError.noBranchSelected, rfl⟩, ?_⟩
        intro req hreq
        simp only [List.append_nil] at hreq
        obtain ⟨p', b', heq⟩ := hcallsAll _ hreq
        exact BCall.noConfusion heq
      · rw [Bool.not_eq_true] at hfb
        simp only [createCommit, hrt,
          afterResolve_flatten_error env inp m st1 fsid fbn e hfs hfb hfl1]
        refine ⟨⟨e, rfl⟩, ?_⟩
        intro req hreq
        simp only [List.mem_append] at hreq
        rcases hreq with hreq | hreq
        · obtain ⟨p', b', heq⟩ := hcallsAll _ hreq
          exact BCall.noConfusion heq
        · have hfetch := flattenSelection_calls_fetch env inp.projectId st1.changeSel _ hreq
          simp [BCall.isFetch] at hfetch

theorem specHunkContribution_lookup_none (env : Env) (projectId path : String)
    (header : HunkHeader) (lines : List LineId)
    (h : (findHunkDiff env projectId path (SelectedHunk.Partial header lines)).2 =
      Except.ok none) :
    specHunkContribution env projectId path (SelectedHunk.Partial header lines) =
      Except.error CommitError.hunkNotFound := by
  simp only [specHunkContribution, h]

theorem specHunkContribution_lookup_error (env : Env) (projectId path : String)
    (header : HunkHeader) (lines : List LineId) (e : CommitError)
    (h : (findHunkDiff env projectId path (SelectedHunk.Partial header lines)).2 =
      Except.error e) :
    specHunkContribution env projectId path (SelectedHunk.Partial header lines) =
      Except.error e := by
  simp only [specHunkContribution, h]

theorem specFlattenHunks_error_of_mem (env : Env) (projectId path : String)
    (hunks : List SelectedHunk) (header : HunkHeader) (lines : List LineId) (e : CommitError)
    (hmem : SelectedHunk.Partial header lines ∈ hunks)
    (hc : specHunkContribution env projectId path (SelectedHunk.Partial header lines) =
      Except.error e) :
    ∃ e', specFlattenHunks env projectId path hunks = Except.error e' := by
  induction hunks with
  | nil => cases hmem
  | cons h rest ih =>
    rcases List.mem_cons.mp hmem with heq | hmem'
    · refine ⟨e, ?_⟩
      rw [← heq]
      simp only [specFlattenHunks, hc]
      rfl
    · cases hcb : specHunkContribution env projectId path h with
      | error e2 =>
        refine ⟨e2, ?_⟩
        simp only [specFlattenHunks, hcb]
        rfl
      | ok b =>
        obtain ⟨e', he'⟩ := ih hmem'
        refine ⟨e', ?_⟩
        simp only [specFlattenHunks, hcb, he']
        rfl

theorem specFlattenFiles_error_of_mem (env : Env) (projectId : String)
    (sel : List FileSelection) (path pathBytes : String)
    (previousPathBytes : Option String) (hunks : List SelectedHunk) (e : CommitError)
    (hmem : FileSelection.Partial path pathBytes previousPathBytes hunks ∈ sel)
    (hh : specFlattenHunks env projectId path hunks = Except.error e) :
    ∃ e', specFlattenFiles env projectId sel = Except.error e' := by
  induction sel with
  | nil => cases hmem
  | cons fsel rest ih =>
    rcases List.mem_cons.mp hmem with heq | hmem'
    · refine ⟨e, ?_⟩
      rw [← heq]
      simp only [specFlattenFiles, specFileEntry, hh]
      rfl
    · cases hcb : specFileEntry env projectId fsel with
      | error e2 =>
        refine ⟨e2, ?_⟩
        simp only [specFlattenFiles, hcb]
        rfl
      | ok w =>
        obtain ⟨e', he'⟩ := ih hmem'
        refine ⟨e', ?_⟩
        simp only [specFlattenFiles, hcb, he']
        rfl

theorem flattenSelection_error_of_mem (env : Env) (projectId : String)
    (sel : List FileSelection) (path pathBytes : String)
    (previousPathBytes : Option String) (hunks : List SelectedHunk)
    (header : HunkHeader) (lines : List LineId) (e : CommitError)
    (hfile : FileSelection.Partial path pathBytes previousPathBytes hunks ∈ sel)
    (hhunk : SelectedHunk.Partial header lines ∈ hunks)
    (hc : specHunkContribution env projectId path (SelectedHunk.Partial header lines) =
      Except.error e) :
    ∃ e', (flattenSelection env projectId sel).2 = Except.error e' := by
  obtain ⟨e1, he1⟩ := specFlattenHunks_error_of_mem env projectId path hunks header lines e
    hhunk hc
  obtain ⟨e2, he2⟩ := specFlattenFiles_error_of_mem env projectId sel path pathBytes
    previousPathBytes hunks e1 hfile he1
  exact ⟨e2, by rw [flattenSelection_eq_spec]; exact he2⟩

theorem handleCommitCreation_error_eq (env : Env) (inp : Inputs) (msg : String) (st : UiSt)
    (st1 : UiSt) (calls : List BCall) (e : CommitError)
    (hm : strFalsy (some msg) = false)
    (hcc : createCommit env inp msg st = (st1, calls, Except.error e)) :
    handleCommitCreation env inp (some msg) st =
      (pushMsg st1 (UiMessage.errorShown "Failed to commit" e), calls) := by
  simp [handleCommitCreation, hm, hcc]

theorem handleCommitCreation_ok_eq (env : Env) (inp : Inputs) (msg : String) (st : UiSt)
    (st1 : UiSt) (calls : List BCall) (u : Unit)
    (hm : strFalsy (some msg) = false)
    (hcc : createCommit env inp msg st = (st1, calls, Except.ok u)) :
    handleCommitCreation env inp (some msg) st = (st1, calls) := by
  simp [handleCommitCreation, hm, hcc]

theorem findHunkDiff_congr (env1 env2 : Env) (projectId : String)
    (hfc : env1.fetchChange = env2.fetchChange)
    (hfd : env1.fetchDiff = env2.fetchDiff) :
    ∀ path hunk, findHunkDiff env1 projectId path hunk = findHunkDiff env2 projectId path hunk := by
  intro path hunk
  unfold findHunkDiff
  rw [hfc, hfd]

theorem flattenHunks_congr (env1 env2 : Env) (projectId : String)
    (hfc : env1.fetchChange = env2.fetchChange)
    (hfd : env1.fetchDiff = env2.fetchDiff)
    (hl : env1.lineIdsToHunkHeaders = env2.lineIdsToHunkHeaders) :
    ∀ path hunks, flattenHunks env1 projectId path hunks = flattenHunks env2 projectId path hunks := by
  intro path hunks
  induction hunks with
  | nil => rfl
  | cons h rest ih =>
    cases h with
    | Full header => simp only [flattenHunks, ih]
    | Partial header lines =>
      simp only [flattenHunks, ih, hl,
        findHunkDiff_congr env1 env2 projectId hfc hfd path (SelectedHunk.Partial header lines)]

/-- Concrete fixtures used by the closed witness theorems. -/
def hdrA : HunkHeader := HunkHeader.mk 1 5 1 6

def hdrB : HunkHeader := HunkHeader.mk 10 4 10 4

def lineB : LineId := LineId.mk (some 11) (some 11)

def hunkDiffB : DiffHunk := DiffHunk.mk 10 4 10 4 "diff-text-B"

def selHunkB : SelectedHunk := SelectedHunk.Partial hdrB [lineB]

def fileA : FileSelection := FileSelection.Full "fileA" "fileA" none

def fileB : FileSelection := FileSelection.Partial "fileB" "fileB" none [SelectedHunk.Full hdrA]

def fileC : FileSelection := FileSelection.Partial "fileC" "fileC" none [selHunkB]

/-- A backend where the lookup of fileC succeeds and the commit succeeds. -/
def envGood : Env := Env.mk
  (fun _ p => if p = "fileC" then some "tcC" else none)
  (fun _ tc => if tc = "tcC" then some (TreeChangeDiff.Patch [hunkDiffB]) else none)
  (fun _ _ _ => [HunkHeader.mk 10 3 10 3])
  (fun _ _ => Except.ok (Stack.mk "stack1" [BranchHead.mk "branch1"]))
  (fun _ => Except.ok (CommitResponse.mk "commit1" []))

/-- A backend whose freshly fetched diff of every file has no hunks, so a
Partial hunk selection finds no coordinate match. -/
def envMiss : Env := Env.mk
  (fun _ _ => some "tc")
  (fun _ _ => some (TreeChangeDiff.Patch []))
  (fun _ _ _ => [])
  (fun _ _ => Except.ok (Stack.mk "stack1" [BranchHead.mk "branch1"]))
  (fun _ => Except.ok (CommitResponse.mk "commit1" []))

/-- Like envGood but the backend commit reports one rejected path. -/
def envRej : Env := Env.mk
  (fun _ p => if p = "fileC" then some "tcC" else none)
  (fun _ tc => if tc = "tcC" then some (TreeChangeDiff.Patch [hunkDiffB]) else none)
  (fun _ _ _ => [HunkHeader.mk 10 3 10 3])
  (fun _ _ => Except.ok (Stack.mk "stack1" [BranchHead.mk "branch1"]))
  (fun _ => Except.ok (CommitResponse.mk "commit2" [("locked", "fileD")]))

/-- Inputs with an explicit stack id and both branch-name fallbacks present. -/
def inpS : Inputs := Inputs.mk "proj" (some "stackA") (some "branchSel") (some "branchTop")
  (some "parent")

/-- Inputs with no stack id (a new stack will be created). -/
def inpN : Inputs := Inputs.mk "proj" none none (some "branchTop") none

/-- Inputs with an explicit stack id and no branch name from any source. -/
def inpNB : Inputs := Inputs.mk "proj" (some "stackA") none none none

/-- A UI state with a draft branch name, saved message fields, an open drawer
and a three-file change selection. -/
def stA : UiSt := UiSt.mk none (some "draft") "title" "descr" (some "new-commit") []
  [fileA, fileB, fileC] []

/-- C1: the flattener inside createCommit emits exactly one change entry per
file selection, in file-selection order: a Full file selection yields an
entry with an empty hunk-header list; a Partial one yields the per-hunk
contributions visited in order, where a Full hunk selection contributes its
four coordinates directly and a Partial one contributes the headers returned
by the diff lookup followed by the line-to-hunk-header translator; moreover
every backend call of the flattener comes from the lookup of some Partial
hunk selection, so Full hunk selections trigger no lookup. -/
theorem claim1_flattener (env : Env) (projectId : String) :
    (∀ sel, (flattenSelection env projectId sel).2 = specFlattenFiles env projectId sel) ∧
    (∀ path hunks, (flattenHunks env projectId path hunks).2 =
      specFlattenHunks env projectId path hunks) ∧
    (∀ path header, specHunkContribution env projectId path (SelectedHunk.Full header) =
      Except.ok [header]) ∧
    (∀ path hunks c, c ∈ (flattenHunks env projectId path hunks).1 →
      ∃ header lines, SelectedHunk.Partial header lines ∈ hunks ∧
        c ∈ (findHunkDiff env projectId path (SelectedHunk.Partial header lines)).1) :=
  ⟨fun sel => flattenSelection_eq_spec env projectId sel,
   fun path hunks => flattenHunks_eq_spec env projectId path hunks,
   fun _ _ => rfl,
   fun path hunks c hc => flattenHunks_calls_from env projectId path hunks c hc⟩

theorem claim1_witness :
    ((flattenSelection envGood "proj" [fileA, fileB, fileC]).2 =
      specFlattenFiles envGood "proj" [fileA, fileB, fileC]) ∧
    (∃ header lines, SelectedHunk.Partial header lines ∈ [SelectedHunk.Full hdrA, selHunkB] ∧
      BCall.fetchChange "proj" "fileC" ∈
        (findHunkDiff envGood "proj" "fileC" (SelectedHunk.Partial header lines)).1) :=
  ⟨(claim1_flattener envGood "proj").1 [fileA, fileB, fileC],
   (claim1_flattener envGood "proj").2.2.2 "fileC" [SelectedHunk.Full hdrA, selHunkB]
     (BCall.fetchChange "proj" "fileC") (by decide)⟩

/-- C2: a Partial hunk selection whose coordinates match no hunk of the
freshly fetched diff (or whose lookup fails) makes createCommit throw with no
backend commit call in its trace, and the caller surfaces a
Failed-to-commit message. -/
theorem claim2_lookupFailureAborts (env : Env) (inp : Inputs) (m : String) (st : UiSt)
    (path pathBytes : String) (previousPathBytes : Option String)
    (hunks : List SelectedHunk) (header : HunkHeader) (lines : List LineId)
    (hfile : FileSelection.Partial path pathBytes previousPathBytes hunks ∈ st.changeSel)
    (hhunk : SelectedHunk.Partial header lines ∈ hunks)
    (hlookup :
      (findHunkDiff env inp.projectId path (SelectedHunk.Partial header lines)).2 =
        Except.ok none ∨
      ∃ e0, (findHunkDiff env inp.projectId path (SelectedHunk.Partial header lines)).2 =
        Except.error e0) :
    (∃ e', (createCommit env inp m st).2.2 = Except.error e') ∧
    (∀ req, BCall.commitInStack req ∉ (createCommit env inp m st).2.1) ∧
    (∀ msg, strFalsy (some msg) = false →
      ∃ e', (handleCommitCreation env inp (some msg) st).1.messages =
        st.messages ++ [UiMessage.errorShown "Failed to commit" e']) := by
  have hcex : ∃ e0, specHunkContribution env inp.projectId path
      (SelectedHunk.Partial header lines) = Except.error e0 := by
    rcases hlookup with h | ⟨e0, h⟩
    · exact ⟨_, specHunkContribution_lookup_none env inp.projectId path header lines h⟩
    · exact ⟨e0, specHunkContribution_lookup_error env inp.projectId path header lines e0 h⟩
  obtain ⟨e0, hc⟩ := hcex
  obtain ⟨e1, hfl⟩ := flattenSelection_error_of_mem env inp.projectId st.changeSel path
    pathBytes previousPathBytes hunks header lines e0 hfile hhunk hc
  have hmain := createCommit_flatten_error env inp m st e1 hfl
  refine ⟨hmain.1, hmain.2, ?_⟩
  intro msg hmsg
  have hmsgmain := createCommit_flatten_error env inp msg st e1 hfl
  obtain ⟨e2, he2⟩ := hmsgmain.1
  rcases hcc : createCommit env inp msg st with ⟨st1, calls, r⟩
  rw [hcc] at he2
  simp only at he2
  subst he2
  have heq := handleCommitCreation_error_eq env inp msg st st1 calls e2 hmsg hcc
  rw [heq]
  refine ⟨e2, ?_⟩
  have hmsgs : st1.messages = st.messages := by
    have hfr := (createCommit_error_frame env inp msg st e2 (by rw [hcc])).2.2.2.2.2
    rw [hcc] at hfr
    exact hfr
  simp [pushMsg, hmsgs]

theorem claim2_witness :
    (∃ e', (createCommit envMiss inpS "m" stA).2.2 = Except.error e') ∧
    (∃ e', (handleCommitCreation envMiss inpS (some "m") stA).1.messages =
      stA.messages ++ [UiMessage.errorShown "Failed to commit" e']) := by
  have h := claim2_lookupFailureAborts envMiss inpS "m" stA "fileC" "fileC" none
    [selHunkB] hdrB [lineB] (by decide) (by decide) (Or.inl rfl)
  exact ⟨h.1, h.2.2 "m" rfl⟩

theorem jsOrStr_idem (a b : Option String) : jsOrStr (jsOrStr a b) b = jsOrStr a b := by
  unfold jsOrStr
  by_cases ha : strFalsy a = true
  · simp [ha]
  · rw [Bool.not_eq_true] at ha
    simp [ha]

/-- C3: with a truthy explicit stack id, createCommit keeps it and resolves
the branch to the previously selected branch name or, failing that, the top
branch name; with no stack id a new stack is created from the draft branch
name and its first head becomes the target; a falsy resolved stack id or
branch name then fails with the no-stack-selected or no-branch-selected error
with no further backend call, before flattening or committing. -/
theorem claim3_targetResolution (env : Env) (inp : Inputs) (m : String) (st : UiSt) :
    (∀ s, inp.stackId = some s → s ≠ "" →
      resolveTarget env inp st =
        (st, [], Except.ok (inp.stackId,
          jsOrStr inp.selectionBranchName inp.topBranchName))) ∧
    (strFalsy inp.stackId = true → ∀ stack,
      env.newStack inp.projectId st.draftBranchName = Except.ok stack →
      resolveTarget env inp st =
        ({ st with projectStackId := some stack.id, draftBranchName := none },
          [BCall.newStack inp.projectId st.draftBranchName],
          Except.ok (some stack.id, (stack.heads.head?).map BranchHead.name))) ∧
    (∀ st1 calls1 fsid fbn,
      resolveTarget env inp st = (st1, calls1, Except.ok (fsid, fbn)) →
      strFalsy fsid = true →
      createCommit env inp m st = (st1, calls1, Except.error CommitError.noStackSelected)) ∧
    (∀ st1 calls1 fsid fbn,
      resolveTarget env inp st = (st1, calls1, Except.ok (fsid, fbn)) →
      strFalsy fsid = false → strFalsy fbn = true →
      createCommit env inp m st = (st1, calls1, Except.error CommitError.noBranchSelected)) := by
  refine ⟨?_, ?_, ?_, ?_⟩
  · intro s hs hne
    have hfalse : strFalsy inp.stackId = false := by
      rw [hs]
      simp [strFalsy, hne]
    rw [resolveTarget_provided env inp st hfalse, jsOrStr_idem]
  · intro hs stack hns
    exact resolveTarget_newStack_ok env inp st stack hs hns
  · intro st1 calls1 fsid fbn hrt hfs
    simp only [createCommit, hrt, afterResolve_guard_stack env inp m st1 fsid fbn hfs]
    simp
  · intro st1 calls1 fsid fbn hrt hfs hfb
    simp only [createCommit, hrt, afterResolve_guard_branch env inp m st1 fsid fbn hfs hfb]
    simp

theorem claim3_witness :
    resolveTarget envGood inpS stA =
      (stA, [], Except.ok (inpS.stackId,
        jsOrStr inpS.selectionBranchName inpS.topBranchName)) ∧
    createCommit envGood inpNB "m" stA =
      (stA, [], Except.error CommitError.noBranchSelected) :=
  ⟨(claim3_targetResolution envGood inpS "m" stA).1 "stackA" rfl (by decide),
   (claim3_targetResolution envGood inpNB "m" stA).2.2.2 stA [] (some "stackA") none
     rfl rfl rfl⟩

/-- C4: whenever the backend commit call succeeds, createCommit records the
new commit id as the current selection for the target stack and branch,
clears the change selection, clears the saved commit title and description,
and closes the drawer. -/
theorem claim4_successEffects (env : Env) (inp : Inputs) (m : String) (st : UiSt) (u : Unit)
    (h : (createCommit env inp m st).2.2 = Except.ok u) :
    ∃ req resp,
      env.commitInStack req = Except.ok resp ∧
      BCall.commitInStack req ∈ (createCommit env inp m st).2.1 ∧
      List.lookup req.stackId (createCommit env inp m st).1.stackSelections =
        some (SelectionState.mk req.stackBranchName resp.newCommit) ∧
      (createCommit env inp m st).1.changeSel = [] ∧
      (createCommit env inp m st).1.commitTitle = "" ∧
      (createCommit env inp m st).1.commitDescription = "" ∧
      (createCommit env inp m st).1.drawerPage = none := by
  obtain ⟨st1, calls1, fsid, fbn, hrt, hfs, hfb, wcs, resp, hfl, hcr, heq⟩ :=
    createCommit_ok_inv env inp m st u h
  have hspec := applySuccess_spec st1 fsid fbn resp
  refine ⟨mkReq inp m fsid fbn wcs, resp, hcr, ?_, ?_, ?_, ?_, ?_, ?_⟩
  · simp only [heq]
    simp
  · simp only [heq]
    exact hspec.2.2.2.2.1
  · simp only [heq]
    exact hspec.2.2.2.1
  · simp only [heq]
    exact hspec.1
  · simp only [heq]
    exact hspec.2.1
  · simp only [heq]
    exact hspec.2.2.1

theorem claim4_witness :
    ∃ req resp, envGood.commitInStack req = Except.ok resp ∧
      BCall.commitInStack req ∈ (createCommit envGood inpS "m" stA).2.1 ∧
      List.lookup req.stackId (createCommit envGood inpS "m" stA).1.stackSelections =
        some (SelectionState.mk req.stackBranchName resp.newCommit) ∧
      (createCommit envGood inpS "m" stA).1.changeSel = [] ∧
      (createCommit envGood inpS "m" stA).1.commitTitle = "" ∧
      (createCommit envGood inpS "m" stA).1.commitDescription = "" ∧
      (createCommit envGood inpS "m" stA).1.drawerPage = none :=
  claim4_successEffects envGood inpS "m" stA () rfl

/-- C5: a non-empty rejected-paths list in the backend result is non-fatal:
every success side effect is still applied and a warning is pushed whose path
list is exactly the rejected paths. -/
theorem claim5_rejectedNonFatal (env : Env) (inp : Inputs) (m : String) (st : UiSt) (u : Unit)
    (h : (createCommit env inp m st).2.2 = Except.ok u) :
    ∃ req resp,
      env.commitInStack req = Except.ok resp ∧
      BCall.commitInStack req ∈ (createCommit env inp m st).2.1 ∧
      List.lookup req.stackId (createCommit env inp m st).1.stackSelections =
        some (SelectionState.mk req.stackBranchName resp.newCommit) ∧
      (createCommit env inp m st).1.changeSel = [] ∧
      (createCommit env inp m st).1.commitTitle = "" ∧
      (createCommit env inp m st).1.commitDescription = "" ∧
      (createCommit env inp m st).1.drawerPage = none ∧
      (resp.pathsToRejectedChanges ≠ [] →
        (createCommit env inp m st).1.messages =
          st.messages ++ [UiMessage.rejectedWarning "Some changes were not committed"
            (resp.pathsToRejectedChanges.map Prod.snd)]) := by
  obtain ⟨st1, calls1, fsid, fbn, hrt, hfs, hfb, wcs, resp, hfl, hcr, heq⟩ :=
    createCommit_ok_inv env inp m st u h
  have hspec := applySuccess_spec st1 fsid fbn resp
  have hst1 : st1.messages = st.messages := by
    have hfr := (resolveTarget_frame env inp st).2.2.2.2.2
    rw [hrt] at hfr
    exact hfr
  refine ⟨mkReq inp m fsid fbn wcs, resp, hcr, ?_, ?_, ?_, ?_, ?_, ?_, ?_⟩
  · simp only [heq]
    simp
  · simp only [heq]
    exact hspec.2.2.2.2.1
  · simp only [heq]
    exact hspec.2.2.2.1
  · simp only [heq]
    exact hspec.1
  · simp only [heq]
    exact hspec.2.1
  · simp only [heq]
    exact hspec.2.2.1
  · intro hne
    have hlen : 0 < resp.pathsToRejectedChanges.length := List.length_pos.mpr hne
    simp only [heq]
    rw [hspec.2.2.2.2.2.2.2, hst1, if_pos hlen]

theorem claim5_witness :
    ∃ req resp, envRej.commitInStack req = Except.ok resp ∧
      BCall.commitInStack req ∈ (createCommit envRej inpS "m" stA).2.1 ∧
      List.lookup req.stackId (createCommit envRej inpS "m" stA).1.stackSelections =
        some (SelectionState.mk req.stackBranchName resp.newCommit) ∧
      (createCommit envRej inpS "m" stA).1.changeSel = [] ∧
      (createCommit envRej inpS "m" stA).1.commitTitle = "" ∧
      (createCommit envRej inpS "m" stA).1.commitDescription = "" ∧
      (createCommit envRej inpS "m" stA).1.drawerPage = none ∧
      (resp.pathsToRejectedChanges ≠ [] →
        (createCommit envRej inpS "m" stA).1.messages =
          stA.messages ++ [UiMessage.rejectedWarning "Some changes were not committed"
            (resp.pathsToRejectedChanges.map Prod.snd)]) :=
  claim5_rejectedNonFatal envRej inpS "m" stA () rfl

/-- C6: the diff lookup throws when the change or the diff cannot be fetched,
returns not-found without an error for a non-patch change type, and inside a
patch: any returned hunk has all four coordinates equal to the selection's,
whenever a coordinate-matching hunk exists one is returned (non-error, some),
and when no hunk matches the result is not-found. -/
theorem claim6_findHunkDiff (env : Env) (projectId path : String) (hunk : SelectedHunk) :
    (env.fetchChange projectId path = none →
      (findHunkDiff env projectId path hunk).2 =
        Except.error CommitError.failedFetchChange) ∧
    (∀ tc, env.fetchChange projectId path = some tc →
      env.fetchDiff projectId tc = none →
      (findHunkDiff env projectId path hunk).2 = Except.error CommitError.failedFetchDiff) ∧
    (∀ tc, env.fetchChange projectId path = some tc →
      env.fetchDiff projectId tc = some TreeChangeDiff.NotPatch →
      (findHunkDiff env projectId path hunk).2 = Except.ok none) ∧
    (∀ tc hsl, env.fetchChange projectId path = some tc →
      env.fetchDiff projectId tc = some (TreeChangeDiff.Patch hsl) →
      ((∀ hd, (findHunkDiff env projectId path hunk).2 = Except.ok (some hd) →
          hd ∈ hsl ∧ hunkMatches hd hunk = true) ∧
        ((∃ hd, hd ∈ hsl ∧ hunkMatches hd hunk = true) →
          ∃ hd', (findHunkDiff env projectId path hunk).2 = Except.ok (some hd') ∧
            hd' ∈ hsl ∧ hunkMatches hd' hunk = true) ∧
        ((∀ hd ∈ hsl, hunkMatches hd hunk = false) →
          (findHunkDiff env projectId path hunk).2 = Except.ok none))) := by
  refine ⟨?_, ?_, ?_, ?_⟩
  · intro hfc
    simp [findHunkDiff, hfc]
  · intro tc hfc hfd
    simp [findHunkDiff, hfc, hfd]
  · intro tc hfc hfd
    simp [findHunkDiff, hfc, hfd]
  · intro tc hsl hfc hfd
    refine ⟨?_, ?_, ?_⟩
    · intro hd hres
      simp only [findHunkDiff, hfc, hfd, Except.ok.injEq] at hres
      have hp := List.find?_some hres
      exact ⟨List.mem_of_find?_eq_some hres, hp⟩
    · intro hex
      obtain ⟨hd, hmem, hmatch⟩ := hex
      have h1 : (List.find? (fun hunkDiff => hunkMatches hunkDiff hunk) hsl).isSome :=
        List.find?_isSome.mpr ⟨hd, hmem, hmatch⟩
      obtain ⟨hd', hy⟩ := Option.isSome_iff_exists.mp h1
      have hp := List.find?_some hy
      refine ⟨hd', ?_, List.mem_of_find?_eq_some hy, hp⟩
      simp only [findHunkDiff, hfc, hfd, Except.ok.injEq]
      exact hy
    · intro hall
      simp only [findHunkDiff, hfc, hfd, Except.ok.injEq]
      apply List.find?_eq_none.mpr
      intro x hx
      simp [hall x hx]

theorem claim6_witness :
    (hunkDiffB ∈ [hunkDiffB] ∧ hunkMatches hunkDiffB selHunkB = true) ∧
    (∃ hd', (findHunkDiff envGood "proj" "fileC" selHunkB).2 = Except.ok (some hd') ∧
      hd' ∈ [hunkDiffB] ∧ hunkMatches hd' selHunkB = true) :=
  ⟨((claim6_findHunkDiff envGood "proj" "fileC" selHunkB).2.2.2 "tcC" [hunkDiffB]
      rfl rfl).1 hunkDiffB rfl,
   ((claim6_findHunkDiff envGood "proj" "fileC" selHunkB).2.2.2 "tcC" [hunkDiffB]
      rfl rfl).2.1 ⟨hunkDiffB, by decide, rfl⟩⟩

/-- C7: a falsy composed commit message is rejected locally: an error toast is
pushed and the backend call trace is empty, so no stack creation, fetch or
commit request is ever issued. -/
theorem claim7_emptyMessageLocalReject (env : Env) (inp : Inputs) (st : UiSt)
    (message : Option String) (hm : strFalsy message = true) :
    handleCommitCreation env inp message st =
      ({ st with messages :=
        st.messages ++ [UiMessage.toastError "Commit message is required"] }, []) := by
  simp [handleCommitCreation, hm, pushMsg]

theorem claim7_witness :
    handleCommitCreation envGood inpS none stA =
      ({ stA with messages :=
        stA.messages ++ [UiMessage.toastError "Commit message is required"] }, []) :=
  claim7_emptyMessageLocalReject envGood inpS stA none rfl

/-- C8: flattening is deterministic in the backend collaborators: two
environments whose fetchChange, fetchDiff and lineIdsToHunkHeaders agree give
identical flattening results (entries, order, headers and trace) on every
selection. -/
theorem claim8_flattenDeterministic (env1 env2 : Env) (projectId : String)
    (hfc : env1.fetchChange = env2.fetchChange)
    (hfd : env1.fetchDiff = env2.fetchDiff)
    (hl : env1.lineIdsToHunkHeaders = env2.lineIdsToHunkHeaders) :
    ∀ sel, flattenSelection env1 projectId sel = flattenSelection env2 projectId sel := by
  intro sel
  induction sel with
  | nil => rfl
  | cons fsel rest ih =>
    cases fsel with
    | Full path pathBytes previousPathBytes => simp only [flattenSelection, ih]
    | Partial path pathBytes previousPathBytes hunks =>
      simp only [flattenSelection, ih,
        flattenHunks_congr env1 env2 projectId hfc hfd hl path hunks]

theorem claim8_witness :
    flattenSelection envGood "proj" [fileA, fileB, fileC] =
      flattenSelection envGood "proj" [fileA, fileB, fileC] :=
  claim8_flattenDeterministic envGood envGood "proj" rfl rfl rfl [fileA, fileB, fileC]

/-- C9: when createCommit throws, the change selection, the saved commit
title and description, the drawer page and the per-stack commit selection are
all left unchanged, because these mutations happen only after the backend
commit call has resolved successfully. -/
theorem claim9_errorAtomicity (env : Env) (inp : Inputs) (m : String) (st : UiSt)
    (e : CommitError) (h : (createCommit env inp m st).2.2 = Except.error e) :
    (createCommit env inp m st).1.changeSel = st.changeSel ∧
    (createCommit env inp m st).1.commitTitle = st.commitTitle ∧
    (createCommit env inp m st).1.commitDescription = st.commitDescription ∧
    (createCommit env inp m st).1.drawerPage = st.drawerPage ∧
    (createCommit env inp m st).1.stackSelections = st.stackSelections := by
  have hh := createCommit_error_frame env inp m st e h
  exact ⟨hh.2.2.2.2.1, hh.1, hh.2.1, hh.2.2.1, hh.2.2.2.1⟩

theorem claim9_witness :
    (createCommit envMiss inpS "m" stA).1.changeSel = stA.changeSel ∧
    (createCommit envMiss inpS "m" stA).1.commitTitle = stA.commitTitle ∧
    (createCommit envMiss inpS "m" stA).1.commitDescription = stA.commitDescription ∧
    (createCommit envMiss inpS "m" stA).1.drawerPage = stA.drawerPage ∧
    (createCommit envMiss inpS "m" stA).1.stackSelections = stA.stackSelections :=
  claim9_errorAtomicity envMiss inpS "m" stA CommitError.hunkNotFound rfl

/-- C10: with no explicit stack id, the newly created stack is recorded as the
project's selected stack and the draft branch name is cleared before any
flattening lookup runs (the stack-creation call heads the trace), and these
side effects persist when the attempt later aborts. -/
theorem claim10_newStackNotRolledBack (env : Env) (inp : Inputs) (m : String) (st : UiSt)
    (stack : Stack) (e : CommitError)
    (hs : strFalsy inp.stackId = true)
    (hns : env.newStack inp.projectId st.draftBranchName = Except.ok stack)
    (herr : (createCommit env inp m st).2.2 = Except.error e) :
    (createCommit env inp m st).1.projectStackId = some stack.id ∧
    (createCommit env inp m st).1.draftBranchName = none ∧
    (createCommit env inp m st).2.1.head? =
      some (BCall.newStack inp.projectId st.draftBranchName) := by
  have hrt := resolveTarget_newStack_ok env inp st stack hs hns
  simp only [createCommit, hrt] at herr ⊢
  have h1 := afterResolve_error_fst env inp m
    { st with projectStackId := some stack.id, draftBranchName := none }
    (some stack.id) ((stack.heads.head?).map BranchHead.name) e herr
  rw [h1]
  refine ⟨rfl, rfl, ?_⟩
  simp

theorem claim10_witness :
    (createCommit envMiss inpN "m" stA).1.projectStackId = some "stack1" ∧
    (createCommit envMiss inpN "m" stA).1.draftBranchName = none ∧
    (createCommit envMiss inpN "m" stA).2.1.head? =
      some (BCall.newStack "proj" (some "draft")) :=
  claim10_newStackNotRolledBack envMiss inpN "m" stA
    (Stack.mk "stack1" [BranchHead.mk "branch1"]) CommitError.hunkNotFound rfl rfl rfl
